import Mathlib

/-!
Verification of the aryv-platform ride-sharing core.

This file is a shallow embedding of the two algorithmic services of the
repository:

* `services/route_optimization.py` — the route sequencer
  (`_optimize_multi_passenger_route`, `_optimize_with_genetic_algorithm`),
  the route evaluator (`_calculate_total_distance`, `_calculate_total_time`,
  `_calculate_efficiency_score`, `_calculate_passenger_routes`,
  `_calculate_waypoint_eta`) and the entry point `optimize_route` with its
  fallback path `_fallback_route_optimization`.
* `services/ride_matching.py` — the candidate ranking part of
  `find_matches` (filter by threshold, stable sort by score descending,
  truncate to 20).

Python floats are modelled as rationals, Python ints as integers, Python
sets of passenger ids as finite sets of strings.  The geodesic distance
function (`geopy.distance.geodesic`, an external library) is modelled as an
explicit function parameter `dist : Waypoint → Waypoint → ℚ`; every theorem
quantifies over it, or instantiates it at a concrete executable function.
Redis cache lookups and database reads are external collaborators and the
embedding models the cache-miss path, which is the path that runs the
algorithms.
-/

namespace Aryv

/-- Waypoint kind: the `type` field of the `Waypoint` dataclass, which the
sequencer only ever compares against the two literals `'pickup'` and
`'dropoff'`. -/
inductive WType where
  | pickup
  | dropoff
deriving DecidableEq, Repr

/-- The `Waypoint` dataclass of `route_optimization.py` (line 18).
Coordinates and times are rationals; `estimated_time` and `priority` are
Python ints. -/
structure Waypoint where
  id : String
  type : WType
  latitude : ℚ
  longitude : ℚ
  address : String
  passengerId : String
  estimatedTime : ℤ
  priority : ℤ
deriving DecidableEq, Repr

/-- The external geodesic distance collaborator
(`geodesic((a.lat, a.lng), (b.lat, b.lng)).kilometers`). -/
abbrev Dist := Waypoint → Waypoint → ℚ

/-- State of the nearest-neighbour loop of
`_optimize_multi_passenger_route` (lines 196-200): the route built so far,
the current location, the two remaining lists and the set
`passenger_in_car`. -/
structure SeqState where
  route : List Waypoint
  current : Waypoint
  remP : List Waypoint
  remD : List Waypoint
  inCar : Finset String

/-- `available_dropoffs` (lines 215-216): dropoffs whose passenger is in
the car. -/
def availableDropoffs (st : SeqState) : List Waypoint :=
  st.remD.filter (fun d => decide (d.passengerId ∈ st.inCar))

/-- The candidate list of one loop iteration (lines 218-222): if the car
is at or over capacity only dropoffs qualify, otherwise remaining pickups
are also candidates. -/
def seqCandidates (maxP : ℤ) (st : SeqState) : List Waypoint :=
  if (st.inCar.card : ℤ) ≥ maxP then availableDropoffs st
  else st.remP ++ availableDropoffs st

/-- The nearest-candidate scan (lines 224-233): `min_distance` starts at
infinity so the first candidate always replaces it, and a later candidate
replaces the best one only when strictly closer (ties keep the earlier
candidate). -/
def selectNearest (dist : Dist) (current : Waypoint) : List Waypoint → Option Waypoint :=
  List.foldl (fun best c =>
    match best with
    | none => some c
    | some b => if dist current c < dist current b then some c else best) none

/-- One loop body update (lines 235-245): append the chosen waypoint,
remove it from its remaining list and update `passenger_in_car`. -/
def seqStep (st : SeqState) (w : Waypoint) : SeqState :=
  if w.type = WType.pickup then
    { route := st.route ++ [w], current := w, remP := st.remP.erase w,
      remD := st.remD, inCar := insert w.passengerId st.inCar }
  else
    { route := st.route ++ [w], current := w, remP := st.remP,
      remD := st.remD.erase w, inCar := st.inCar.erase w.passengerId }

/-- The `while remaining_pickups or remaining_dropoffs` loop
(lines 210-249).  `fuel` is the number of remaining waypoints; every
iteration visits exactly one waypoint, so the top-level calls pass exactly
enough fuel.  When no candidate is found the loop extends the route with
all remaining waypoints in input order and breaks (lines 246-249). -/
def seqGo (dist : Dist) (maxP : ℤ) : ℕ → SeqState → List Waypoint
  | 0, st => st.route ++ st.remP ++ st.remD
  | fuel + 1, st =>
    if st.remP.isEmpty && st.remD.isEmpty then st.route
    else
      match selectNearest dist st.current (seqCandidates maxP st) with
      | none => st.route ++ st.remP ++ st.remD
      | some w => seqGo dist maxP fuel (seqStep st w)

/-- The loop state right after the seed step (lines 202-207): the first
pickup has been popped, appended to the route and its passenger boarded. -/
def seedState (p : Waypoint) (rest dropoffs : List Waypoint) : SeqState :=
  { route := [p], current := p, remP := rest, remD := dropoffs,
    inCar := {p.passengerId} }

/-- The loop state when there is no pickup to seed with: `current` is the
first dropoff, nothing has been visited and the car is empty. -/
def noPickupState (d : Waypoint) (dropoffs : List Waypoint) : SeqState :=
  { route := [], current := d, remP := [], remD := dropoffs, inCar := ∅ }

/-- `_optimize_multi_passenger_route` (lines 191-255).  The seed step
(lines 202-207) pops the first pickup.  When both input lists are empty,
`pickups[0] if pickups else dropoffs[0]` raises `IndexError`, which the
handler at line 253 turns into `pickups + dropoffs`, the empty list. -/
def optimizeMultiPassengerRoute (dist : Dist) (maxP : ℤ)
    (pickups dropoffs : List Waypoint) : List Waypoint :=
  match pickups with
  | [] =>
    match dropoffs with
    | [] => []
    | d :: _ => seqGo dist maxP dropoffs.length (noPickupState d dropoffs)
  | p :: rest =>
    seqGo dist maxP (rest.length + dropoffs.length) (seedState p rest dropoffs)

/-- `pickups = [wp for wp in waypoints if wp.type == 'pickup']` (line 156). -/
def pickupsOf (waypoints : List Waypoint) : List Waypoint :=
  waypoints.filter (fun w => decide (w.type = WType.pickup))

/-- `dropoffs = [wp for wp in waypoints if wp.type == 'dropoff']` (line 157). -/
def dropoffsOf (waypoints : List Waypoint) : List Waypoint :=
  waypoints.filter (fun w => decide (w.type = WType.dropoff))

/-- The waypoint-ordering part of `_optimize_with_genetic_algorithm`
(lines 156-164): split into pickups and dropoffs, handle the single
pickup/dropoff pair directly, and otherwise run the nearest-neighbour
sequencer.  `maxP` is `constraints.get('max_passengers', self.max_passengers)`
as read inside the loop at line 219 (the raw, unclamped value). -/
def sequenceWaypoints (dist : Dist) (maxP : ℤ) (waypoints : List Waypoint) :
    List Waypoint :=
  if (pickupsOf waypoints).length = 1 ∧ (dropoffsOf waypoints).length = 1 then
    pickupsOf waypoints ++ dropoffsOf waypoints
  else optimizeMultiPassengerRoute dist maxP (pickupsOf waypoints) (dropoffsOf waypoints)

/-- Python `int(x)` applied to a float: truncation toward zero. -/
def pyInt (q : ℚ) : ℤ := if 0 ≤ q then ⌊q⌋ else ⌈q⌉

/-- `_calculate_total_distance` (lines 257-274): sum of consecutive
distances, `0.0` for fewer than two waypoints. -/
def calculateTotalDistance (dist : Dist) : List Waypoint → ℚ
  | a :: b :: rest => dist a b + calculateTotalDistance dist (b :: rest)
  | _ => 0

/-- `_calculate_total_time` (lines 276-288): driving time at
`avg_speed_kmh = 30` plus the dwell time of every waypoint but the last,
truncated by `int(...)`. -/
def calculateTotalTime (dist : Dist) (waypoints : List Waypoint) : ℤ :=
  if waypoints.length < 2 then 0
  else
    pyInt ((calculateTotalDistance dist waypoints / 30) * 3600 +
      ((waypoints.dropLast.map (fun w => w.estimatedTime)).sum : ℤ))

/-- `_calculate_efficiency_score` (lines 290-306).  The `1/2` branch is
the `except` handler at line 305: when the optimized distance is zero and
the sequential distance is not, `sequential_distance / optimized_distance`
raises `ZeroDivisionError` and the handler returns `0.5`. -/
def calculateEfficiencyScore (dist : Dist) (optimized original : List Waypoint) : ℚ :=
  let sequentialDistance := calculateTotalDistance dist original
  let optimizedDistance := calculateTotalDistance dist optimized
  if sequentialDistance = 0 then 1
  else if optimizedDistance = 0 then 1/2
  else max 0 (min 1 (sequentialDistance / optimizedDistance))

/-- The `OptimizedRoute` dataclass (line 29), as produced by
`_optimize_with_genetic_algorithm`. -/
structure OptimizedRoute where
  waypoints : List Waypoint
  totalDistance : ℚ
  totalTime : ℤ
  totalCost : ℚ
  efficiencyScore : ℚ
deriving DecidableEq, Repr

/-- The partial sums of `_calculate_waypoint_eta` (lines 378-393): for
consecutive waypoints, driving time at 30 km/h plus the dwell time of the
departed waypoint. -/
def etaSum (dist : Dist) : List Waypoint → ℚ
  | a :: b :: rest => dist a b / 30 * 3600 + (a.estimatedTime : ℚ) + etaSum dist (b :: rest)
  | _ => 0

/-- `_calculate_waypoint_eta` (lines 371-395): out-of-range indices
(including the `-1` produced for a missing waypoint) yield `0`; otherwise
the accumulated float total is truncated by `int(...)`. -/
def calculateWaypointEta (dist : Dist) (waypoints : List Waypoint) (waypointIndex : ℤ) : ℤ :=
  if waypointIndex < 0 ∨ (waypoints.length : ℤ) ≤ waypointIndex then 0
  else pyInt (etaSum dist (waypoints.take (waypointIndex.toNat + 1)))

/-- The per-passenger route entry built at lines 347-364.  The echoed
pickup/dropoff location fields and the decimal rounding applied during
dict serialization are omitted; all numeric content is kept exact. -/
structure PassengerSegment where
  pickupOrder : ℤ
  dropoffOrder : ℤ
  directDistanceKm : ℚ
  estimatedPickupTime : ℤ
  estimatedDropoffTime : ℤ
  estimatedRideTimeMinutes : ℚ
deriving DecidableEq, Repr

/-- One update of the `passenger_waypoints` grouping dict
(lines 315-323): the entry for the passenger keeps the latest pickup and
the latest dropoff seen. -/
def setGroupEntry (e : Option Waypoint × Option Waypoint) (w : Waypoint) :
    Option Waypoint × Option Waypoint :=
  if w.type = WType.pickup then (some w, e.2) else (e.1, some w)

/-- The `passenger_waypoints` grouping dict of
`_calculate_passenger_routes`, as an insertion-ordered association list
(Python dicts preserve insertion order). -/
def groupPassengerWaypoints (waypoints : List Waypoint) :
    List (String × (Option Waypoint × Option Waypoint)) :=
  waypoints.foldl (fun gs w =>
    if gs.any (fun g => decide (g.1 = w.passengerId)) then
      gs.map (fun g => if g.1 = w.passengerId then (g.1, setGroupEntry g.2 w) else g)
    else gs ++ [(w.passengerId, setGroupEntry (none, none) w)]) []

/-- The `next((i for i, wp in enumerate(...) if wp.id == ...), -1)` index
lookups at lines 332-335: first index with the given id, `-1` if absent. -/
def findIdxById (waypoints : List Waypoint) (wid : String) : ℤ :=
  match waypoints.findIdx? (fun w => decide (w.id = wid)) with
  | some i => (i : ℤ)
  | none => -1

/-- `_calculate_passenger_routes` (lines 308-369): group the original
waypoints by passenger, and for every passenger having both a pickup and a
dropoff emit a segment with the orders, the direct distance and the ETAs
read off the optimized route. -/
def calculatePassengerRoutes (dist : Dist) (optimizedWaypoints waypoints : List Waypoint) :
    List (String × PassengerSegment) :=
  (groupPassengerWaypoints waypoints).foldl (fun acc g =>
    match g.2.1, g.2.2 with
    | some pickup, some dropoff =>
      let pickupIndex := findIdxById optimizedWaypoints pickup.id
      let dropoffIndex := findIdxById optimizedWaypoints dropoff.id
      let pickupEta := calculateWaypointEta dist optimizedWaypoints pickupIndex
      let dropoffEta := calculateWaypointEta dist optimizedWaypoints dropoffIndex
      acc ++ [(g.1,
        { pickupOrder := pickupIndex + 1,
          dropoffOrder := dropoffIndex + 1,
          directDistanceKm := dist pickup dropoff,
          estimatedPickupTime := pickupEta,
          estimatedDropoffTime := dropoffEta,
          estimatedRideTimeMinutes := ((dropoffEta - pickupEta : ℤ) : ℚ) / 60 })]
    | _, _ => acc) []

/-- The `constraints` dict of `optimize_route`; only `max_passengers` is
read by the optimization path. -/
structure Constraints where
  maxPassengers : Option ℤ
deriving DecidableEq, Repr

/-- `constraints.get('max_passengers', self.max_passengers)` with
`self.max_passengers = 4` (line 51). -/
def Constraints.getMaxPassengers (c : Constraints) : ℤ :=
  c.maxPassengers.getD 4

/-- `_optimize_with_genetic_algorithm` (lines 148-189): order the
waypoints, then attach the route metrics.  The efficiency score compares
the ordered route against the input order. -/
def optimizeWithGeneticAlgorithm (dist : Dist) (c : Constraints)
    (waypoints : List Waypoint) : OptimizedRoute :=
  let optimizedWaypoints := sequenceWaypoints dist c.getMaxPassengers waypoints
  { waypoints := optimizedWaypoints
    totalDistance := calculateTotalDistance dist optimizedWaypoints
    totalTime := calculateTotalTime dist optimizedWaypoints
    totalCost := 0
    efficiencyScore := calculateEfficiencyScore dist optimizedWaypoints waypoints }

/-- The `route_summary` block of the `optimize_route` result
(lines 102-107); decimal rounding for display is omitted, the values are
kept exact. -/
structure RouteSummary where
  totalDistanceKm : ℚ
  totalTimeMinutes : ℚ
  efficiencyScore : ℚ
  totalPassengers : ℕ
deriving DecidableEq, Repr

/-- The dictionary returned by `optimize_route`: either the normal result
(lines 100-115, `error = none`) or the fallback dict of
`_fallback_route_optimization` (lines 397-415, which carries an `error`
message).  Metadata and timestamp fields are presentation only and are
omitted. -/
structure OptimizeRouteResult where
  optimizedWaypoints : List Waypoint
  routeSummary : RouteSummary
  passengerRoutes : List (String × PassengerSegment)
  error : Option String
deriving DecidableEq, Repr

/-- `_fallback_route_optimization` (lines 397-415): the input waypoints
unchanged, fixed numeric estimates (10.0 km, 30.0 minutes, efficiency
0.5), empty passenger routes and an error message. -/
def fallbackRouteOptimization (waypoints : List Waypoint) : OptimizeRouteResult :=
  { optimizedWaypoints := waypoints
    routeSummary :=
      { totalDistanceKm := 10
        totalTimeMinutes := 30
        efficiencyScore := 1/2
        totalPassengers := ((waypoints.map (fun w => w.passengerId)).toFinset).card }
    passengerRoutes := []
    error := some "Route optimization failed, using fallback" }

/-- `set(w.passenger_id for w in waypoint_objects if w.passenger_id)`
(line 89): the empty string is falsy and is excluded. -/
def passengerSet (waypoints : List Waypoint) : Finset String :=
  ((waypoints.filter (fun w => decide (w.passengerId ≠ ""))).map
    (fun w => w.passengerId)).toFinset

/-- The clamped capacity used by the validation at line 86:
`min(constraints.get('max_passengers', self.max_passengers), self.max_passengers)`. -/
def effectiveMaxPassengers (c : Constraints) : ℤ :=
  min c.getMaxPassengers 4

/-- `optimize_route` (lines 56-128), on the cache-miss path and with the
input already parsed by `_parse_waypoints`.  The two `raise ValueError`
validations (fewer than 2 waypoints, line 72; too many distinct
passengers, line 90) are caught by the handler at line 126, which returns
the fallback dict, so the embedding returns it directly. -/
def optimizeRoute (dist : Dist) (waypoints : List Waypoint) (c : Constraints) :
    OptimizeRouteResult :=
  if waypoints.length < 2 then fallbackRouteOptimization waypoints
  else if (passengerSet waypoints).card > effectiveMaxPassengers c then
    fallbackRouteOptimization waypoints
  else
    let opt := optimizeWithGeneticAlgorithm dist c waypoints
    { optimizedWaypoints := opt.waypoints
      routeSummary :=
        { totalDistanceKm := opt.totalDistance
          totalTimeMinutes := (opt.totalTime : ℚ) / 60
          efficiencyScore := opt.efficiencyScore
          totalPassengers := (passengerSet waypoints).card }
      passengerRoutes := calculatePassengerRoutes dist opt.waypoints waypoints
      error := none }

/-- The fields of the `RideMatch` dataclass of `ride_matching.py`
(line 18) that the ranking logic reads; the vehicle/timing echo fields are
presentation only and are omitted. -/
structure RideMatch where
  rideId : String
  driverId : String
  compatibilityScore : ℚ
  distanceFromOrigin : ℚ
  distanceToDestination : ℚ
  routeEfficiency : ℚ
deriving DecidableEq, Repr

/-- The comparison used by `matches.sort(key=lambda x: x.compatibility_score,
reverse=True)`: `a` may stay before `b` iff its score is at least the score
of `b`.  Python sort is stable, so equal scores keep input order, which is
exactly `List.mergeSort` with this relation. -/
def scoreGe (a b : RideMatch) : Bool :=
  decide (b.compatibilityScore ≤ a.compatibilityScore)

/-- The scoring-and-threshold loop of `find_matches` (lines 92-96): every
ride is scored by `_calculate_compatibility` (an explicit function
parameter here; its `except` path returns `None`), and only matches whose
score is strictly above `0.3` are kept. -/
def thresholdFilter {α : Type} (calculateCompatibility : α → Option RideMatch)
    (availableRides : List α) : List RideMatch :=
  availableRides.filterMap (fun ride =>
    match calculateCompatibility ride with
    | some m => if (3/10 : ℚ) < m.compatibilityScore then some m else none
    | none => none)

/-- The candidate-ranking core of `find_matches` (lines 87-108): an empty
ride list returns early with `[]` (lines 87-89); otherwise the scored
matches above the threshold are stably sorted by score descending
(line 99) and truncated to 20 (line 102). -/
def findMatches {α : Type} (calculateCompatibility : α → Option RideMatch)
    (availableRides : List α) : List RideMatch :=
  if availableRides.isEmpty then []
  else ((thresholdFilter calculateCompatibility availableRides).mergeSort scoreGe).take 20

/-- `_calculate_route_efficiency` of `ride_matching.py` (lines 293-316):
the passenger direct distance over the three-leg distance via the ride,
capped at 1.0, with the degenerate zero denominator mapped to 0.0.  The
coordinates are abstract points with an external distance function. -/
def calculateRouteEfficiency (gdist : ℚ × ℚ → ℚ × ℚ → ℚ)
    (passengerOrigin passengerDestination rideOrigin rideDestination : ℚ × ℚ) : ℚ :=
  let passengerDirect := gdist passengerOrigin passengerDestination
  let totalViaRide := gdist passengerOrigin rideOrigin +
    gdist rideOrigin rideDestination + gdist rideDestination passengerDestination
  if totalViaRide = 0 then 0
  else min 1 (passengerDirect / totalViaRide)

/-- Helper to build concrete waypoints for the executable test inputs. -/
def wpt (i : String) (t : WType) (la lo : ℚ) (pid : String) : Waypoint :=
  { id := i, type := t, latitude := la, longitude := lo, address := "",
    passengerId := pid, estimatedTime := 120, priority := 1 }

/-- A concrete executable stand-in for the external geodesic collaborator:
the taxicab distance on coordinates (any nonnegative function works for
the structural properties; theorems quantify over `dist` where it
matters). -/
def exDist : Dist := fun a b =>
  |a.latitude - b.latitude| + |a.longitude - b.longitude|

/-- Two passengers, one pickup/dropoff pair each. -/
def exWs2 : List Waypoint :=
  [wpt "p1" WType.pickup 0 0 "A", wpt "p2" WType.pickup 1 0 "B",
   wpt "d1" WType.dropoff 2 0 "A", wpt "d2" WType.dropoff 3 0 "B"]

/-- Constant distance function: every hop is one kilometre.  Rational
arithmetic on it stays trivial, which keeps concrete evaluations easy. -/
def exDistOne : Dist := fun _ _ => 1

/-- Scenario C fixtures: one pickup and two dropoffs, the second dropoff
belonging to a passenger who is never picked up. -/
def exP1 : Waypoint := wpt "p1" WType.pickup 0 0 "A"

/-- Paired dropoff of `exP1`. -/
def exD1 : Waypoint := wpt "d1" WType.dropoff 1 0 "A"

/-- Unpaired dropoff: passenger B has no pickup. -/
def exD2 : Waypoint := wpt "d2" WType.dropoff 2 0 "B"

/-- Helper to build concrete ride matches for the executable test
inputs. -/
def exMatch (q : ℚ) (oid : String) (od : ℚ) : RideMatch :=
  { rideId := oid, driverId := oid, compatibilityScore := q,
    distanceFromOrigin := od, distanceToDestination := 0, routeEfficiency := 1 }

/-- First candidate in list order: same score as `exM2` but farther from
the origin and with the larger id. -/
def exM1 : RideMatch := exMatch 1 "b" 5

/-- Second candidate in list order: same score, closer origin, smaller
id. -/
def exM2 : RideMatch := exMatch 1 "a" 1

/-- Concrete scorer for the tie-break counterexample. -/
def calcEx : ℕ → Option RideMatch :=
  fun n => if n = 1 then some exM1 else some exM2

/-- Five waypoints with five distinct passengers, for the capacity-clamp
check. -/
def exWs5 : List Waypoint :=
  [wpt "a" WType.pickup 0 0 "A", wpt "b" WType.pickup 0 0 "B",
   wpt "c" WType.pickup 0 0 "C", wpt "e" WType.pickup 0 0 "D",
   wpt "f" WType.pickup 0 0 "E"]

/-- Boolean test: waypoint of kind `t` belonging to passenger `pid`. -/
def wPred (t : WType) (pid : String) : Waypoint → Bool :=
  fun w => decide (w.type = t ∧ w.passengerId = pid)

/-- Number of waypoints of kind `t` for passenger `pid`. -/
def pairCount (ws : List Waypoint) (t : WType) (pid : String) : ℕ :=
  ws.countP (wPred t pid)

/-- The well-formedness assumption of the spec: every passenger appearing
in the list has exactly one pickup and exactly one dropoff. -/
def Paired (ws : List Waypoint) : Prop :=
  ∀ pid ∈ ws.map (fun w => w.passengerId),
    pairCount ws WType.pickup pid = 1 ∧ pairCount ws WType.dropoff pid = 1

instance pairedDecidable (ws : List Waypoint) : Decidable (Paired ws) :=
  inferInstanceAs (Decidable (∀ pid ∈ ws.map (fun w : Waypoint => w.passengerId),
    pairCount ws WType.pickup pid = 1 ∧ pairCount ws WType.dropoff pid = 1))

/-- Accumulate the passenger ids of the pickups of `l` on top of `seen`. -/
def pickedAcc (seen : List String) (l : List Waypoint) : List String :=
  l.foldl (fun s w => if w.type = WType.pickup then w.passengerId :: s else s) seen

/-- Every dropoff is preceded (in list order) by a pickup of the same
passenger, where `seen` are passenger ids picked up before the list
starts. -/
def pbdAux : List String → List Waypoint → Prop
  | _, [] => True
  | seen, w :: rest =>
    (w.type = WType.dropoff → w.passengerId ∈ seen) ∧
    pbdAux (if w.type = WType.pickup then w.passengerId :: seen else seen) rest

/-- The index-level ordering property of the claim: for every passenger,
every pickup of that passenger occurs strictly before every dropoff of
that passenger. -/
def PairOrderOk (out : List Waypoint) : Prop :=
  ∀ (i j : ℕ) (hi : i < out.length) (hj : j < out.length),
    (out.get ⟨i, hi⟩).type = WType.pickup →
    (out.get ⟨j, hj⟩).type = WType.dropoff →
    (out.get ⟨i, hi⟩).passengerId = (out.get ⟨j, hj⟩).passengerId →
    i < j

/-- Loop invariant of the nearest-neighbour sequencer, relative to the
full multiset `ws` of waypoints being sequenced. -/
structure SeqInv (ws : List Waypoint) (st : SeqState) : Prop where
  perm : (st.route ++ st.remP ++ st.remD).Perm ws
  remPk : ∀ w ∈ st.remP, w.type = WType.pickup
  remDk : ∀ w ∈ st.remD, w.type = WType.dropoff
  pbd : pbdAux [] st.route
  inCarPicked : ∀ pid ∈ st.inCar,
    ∃ w ∈ st.route, w.type = WType.pickup ∧ w.passengerId = pid
  dropPending : ∀ pid ∈ st.inCar, ∃ d ∈ st.remD, d.passengerId = pid
  pickPending : ∀ d ∈ st.remD, d.passengerId ∉ st.inCar →
    ∃ p ∈ st.remP, p.passengerId = d.passengerId

/-- Replay of a route: the set of passengers in the vehicle after
visiting the given stops, a passenger being aboard from their pickup until
their dropoff. -/
def replayCar (route : List Waypoint) : Finset String :=
  route.foldl (fun s w =>
    if w.type = WType.pickup then insert w.passengerId s else s.erase w.passengerId) ∅

theorem pickedAcc_nil (seen : List String) : pickedAcc seen [] = seen := rfl

theorem pickedAcc_cons (seen : List String) (w : Waypoint) (l : List Waypoint) :
    pickedAcc seen (w :: l) =
      pickedAcc (if w.type = WType.pickup then w.passengerId :: seen else seen) l := rfl

theorem subset_pickedAcc : ∀ (l : List Waypoint) (seen : List String), seen ⊆ pickedAcc seen l
  | [], _ => fun _ h => h
  | w :: l, seen => by
    rw [pickedAcc_cons]
    intro x hx
    refine subset_pickedAcc l _ ?_
    by_cases hw : w.type = WType.pickup
    · simp [hw, List.mem_cons, hx]
    · simpa [hw] using hx

theorem mem_pickedAcc_of_mem : ∀ (l : List Waypoint) (seen : List String) (w : Waypoint),
    w ∈ l → w.type = WType.pickup → w.passengerId ∈ pickedAcc seen l
  | [], _, _, h, _ => absurd h (List.not_mem_nil _)
  | x :: l, seen, w, h, hw => by
    rw [pickedAcc_cons]
    rcases List.mem_cons.mp h with rfl | hmem
    · exact subset_pickedAcc l _ (by simp [hw])
    · exact mem_pickedAcc_of_mem l _ w hmem hw

theorem pbdAux_append : ∀ (l1 l2 : List Waypoint) (seen : List String),
    pbdAux seen (l1 ++ l2) ↔ pbdAux seen l1 ∧ pbdAux (pickedAcc seen l1) l2
  | [], l2, seen => by simp [pbdAux, pickedAcc_nil]
  | w :: l1, l2, seen => by
    have IH := pbdAux_append l1 l2
      (if w.type = WType.pickup then w.passengerId :: seen else seen)
    exact ⟨fun h => ⟨⟨h.1, (IH.mp h.2).1⟩, (IH.mp h.2).2⟩,
      fun h => ⟨h.1.1, IH.mpr ⟨h.1.2, h.2⟩⟩⟩

theorem pbdAux_of_forall_mem : ∀ (l : List Waypoint) (seen : List String),
    (∀ w ∈ l, w.type = WType.dropoff → w.passengerId ∈ seen) → pbdAux seen l
  | [], _, _ => trivial
  | w :: l, seen, h => by
    refine ⟨h w (List.mem_cons_self _ _), ?_⟩
    refine pbdAux_of_forall_mem l _ fun x hx hxd => ?_
    have hmem := h x (List.mem_cons_of_mem _ hx) hxd
    by_cases hw : w.type = WType.pickup
    · simp [hw, List.mem_cons, hmem]
    · simpa [hw] using hmem

theorem pbdAux_of_all_pickup (l : List Waypoint) (seen : List String)
    (h : ∀ w ∈ l, w.type = WType.pickup) : pbdAux seen l := by
  refine pbdAux_of_forall_mem l seen fun w hw hwd => ?_
  rw [h w hw] at hwd
  exact absurd hwd (by simp)

/-- From `pbdAux`, a dropoff occurring in the list has a pickup of the
same passenger in the list (or was already seen). -/
theorem pbd_mem : ∀ (l : List Waypoint) (seen : List String), pbdAux seen l →
    ∀ d ∈ l, d.type = WType.dropoff →
      d.passengerId ∈ seen ∨ ∃ p ∈ l, p.type = WType.pickup ∧ p.passengerId = d.passengerId
  | [], _, _, d, hd, _ => absurd hd (List.not_mem_nil _)
  | w :: l, seen, h, d, hd, hdrop => by
    rcases List.mem_cons.mp hd with rfl | hmem
    · exact Or.inl (h.1 hdrop)
    · rcases pbd_mem l _ h.2 d hmem hdrop with hseen | ⟨p, hp, hpt, hpid⟩
      · by_cases hw : w.type = WType.pickup
        · rw [hw, if_pos rfl] at hseen
          rcases List.mem_cons.mp hseen with heq | hseen'
          · exact Or.inr ⟨w, List.mem_cons_self _ _, hw, heq.symm⟩
          · exact Or.inl hseen'
        · rw [if_neg hw] at hseen
          exact Or.inl hseen
      · exact Or.inr ⟨p, List.mem_cons_of_mem _ hp, hpt, hpid⟩

/-- From `pbdAux []`, a dropoff at position `j` has a pickup of the same
passenger at an earlier position. -/
theorem pbd_position_aux : ∀ (l : List Waypoint) (seen : List String), pbdAux seen l →
    ∀ (j : ℕ) (hj : j < l.length), (l.get ⟨j, hj⟩).type = WType.dropoff →
      (l.get ⟨j, hj⟩).passengerId ∈ seen ∨
      ∃ (i : ℕ) (hi : i < l.length), i < j ∧ (l.get ⟨i, hi⟩).type = WType.pickup ∧
        (l.get ⟨i, hi⟩).passengerId = (l.get ⟨j, hj⟩).passengerId
  | [], _, _, j, hj, _ => absurd hj (by simp)
  | w :: l, seen, h, 0, hj, hdrop => Or.inl (h.1 hdrop)
  | w :: l, seen, h, j + 1, hj, hdrop => by
    have hj' : j < l.length := by simpa using Nat.lt_of_succ_lt_succ hj
    have := pbd_position_aux l _ h.2 j hj' (by simpa using hdrop)
    rcases this with hseen | ⟨i, hi, hij, hit, hip⟩
    · by_cases hw : w.type = WType.pickup
      · rw [hw, if_pos rfl] at hseen
        rcases List.mem_cons.mp hseen with heq | hseen'
        · exact Or.inr ⟨0, Nat.succ_pos _, Nat.succ_pos _, hw, by simpa using heq.symm⟩
        · exact Or.inl (by simpa using hseen')
      · rw [if_neg hw] at hseen
        exact Or.inl (by simpa using hseen)
    · exact Or.inr ⟨i + 1, by simpa using Nat.succ_lt_succ hi,
        Nat.succ_lt_succ hij, by simpa using hit, by simpa using hip⟩

/-- Two positions satisfying a predicate force the count to be at least
two. -/
theorem two_le_countP_of_get {α : Type} {p : α → Bool} :
    ∀ (l : List α) (i j : ℕ) (hi : i < l.length) (hj : j < l.length), i < j →
      p (l.get ⟨i, hi⟩) = true → p (l.get ⟨j, hj⟩) = true → 2 ≤ l.countP p
  | [], i, j, hi, _, _, _, _ => absurd hi (by simp)
  | x :: l, 0, j + 1, hi, hj, _, hpi, hpj => by
    have hj' : j < l.length := by simpa using Nat.lt_of_succ_lt_succ hj
    have hx : p x = true := by simpa using hpi
    have hmem : l.get ⟨j, hj'⟩ ∈ l := List.get_mem l _ _
    have h1 : 0 < l.countP p :=
      List.countP_pos_iff.mpr ⟨l.get ⟨j, hj'⟩, hmem, by simpa using hpj⟩
    rw [List.countP_cons, if_pos hx]
    omega
  | x :: l, i + 1, j + 1, hi, hj, hij, hpi, hpj => by
    have hi' : i < l.length := by simpa using Nat.lt_of_succ_lt_succ hi
    have hj' : j < l.length := by simpa using Nat.lt_of_succ_lt_succ hj
    have := two_le_countP_of_get l i j hi' hj' (Nat.lt_of_succ_lt_succ hij)
      (by simpa using hpi) (by simpa using hpj)
    rw [List.countP_cons]
    omega

/-- Any permutation of a paired list that satisfies `pbdAux []` orders
every pickup before the matching dropoff. -/
theorem pairOrderOk_of_pbd (ws out : List Waypoint) (hP : Paired ws)
    (hperm : out.Perm ws) (hpbd : pbdAux [] out) : PairOrderOk out := by
  intro i j hi hj hit hjt hpid
  set pid := (out.get ⟨j, hj⟩).passengerId with hpiddef
  set P : Waypoint → Bool := fun w => decide (w.type = WType.pickup ∧ w.passengerId = pid)
    with hPdef
  have hjmem : out.get ⟨j, hj⟩ ∈ out := List.get_mem out _ _
  have hpidws : pid ∈ ws.map (fun w => w.passengerId) :=
    List.mem_map.mpr ⟨out.get ⟨j, hj⟩, hperm.mem_iff.mp hjmem, rfl⟩
  have hcount1 : pairCount ws WType.pickup pid = 1 := (hP pid hpidws).1
  have hcountOut : out.countP P = 1 := by
    have := hperm.countP_eq P
    rw [this]
    exact hcount1
  rcases pbd_position_aux out [] hpbd j hj hjt with habs | ⟨i0, hi0, hi0j, hi0t, hi0p⟩
  · exact absurd habs (List.not_mem_nil _)
  by_cases heq : i = i0
  · exact heq ▸ hi0j
  · exfalso
    have hpi : P (out.get ⟨i, hi⟩) = true := by
      rw [hPdef]
      simp only [decide_eq_true_eq]
      exact ⟨hit, hpid⟩
    have hpi0 : P (out.get ⟨i0, hi0⟩) = true := by
      rw [hPdef]
      simp only [decide_eq_true_eq]
      exact ⟨hi0t, hi0p⟩
    rcases Nat.lt_or_ge i i0 with hlt | hge
    · have := @two_le_countP_of_get Waypoint P out i i0 hi hi0 hlt hpi hpi0
      omega
    · have hlt : i0 < i := Nat.lt_of_le_of_ne hge (fun h => heq h.symm)
      have := @two_le_countP_of_get Waypoint P out i0 i hi0 hi hlt hpi0 hpi
      omega

theorem selectNearest_aux (dist : Dist) (cur : Waypoint) :
    ∀ (l : List Waypoint) (b : Waypoint),
      ∃ w, List.foldl (fun best c =>
          match best with
          | none => some c
          | some b' => if dist cur c < dist cur b' then some c else best) (some b) l
        = some w ∧ (w = b ∨ w ∈ l)
  | [], b => ⟨b, rfl, Or.inl rfl⟩
  | c :: l, b => by
    simp only [List.foldl_cons]
    by_cases h : dist cur c < dist cur b
    · rw [if_pos h]
      obtain ⟨w, hw, hmem⟩ := selectNearest_aux dist cur l c
      refine ⟨w, hw, Or.inr ?_⟩
      rcases hmem with rfl | hm
      · exact List.mem_cons_self _ _
      · exact List.mem_cons_of_mem _ hm
    · rw [if_neg h]
      obtain ⟨w, hw, hmem⟩ := selectNearest_aux dist cur l b
      refine ⟨w, hw, ?_⟩
      rcases hmem with rfl | hm
      · exact Or.inl rfl
      · exact Or.inr (List.mem_cons_of_mem _ hm)

theorem selectNearest_some_of_ne_nil (dist : Dist) (cur : Waypoint) (l : List Waypoint)
    (hl : l ≠ []) : ∃ w, selectNearest dist cur l = some w ∧ w ∈ l := by
  match l with
  | [] => exact absurd rfl hl
  | c :: l =>
    obtain ⟨w, hw, hmem⟩ := selectNearest_aux dist cur l c
    refine ⟨w, ?_, ?_⟩
    · simpa [selectNearest] using hw
    · rcases hmem with rfl | hm
      · exact List.mem_cons_self _ _
      · exact List.mem_cons_of_mem _ hm

theorem selectNearest_mem (dist : Dist) (cur : Waypoint) (l : List Waypoint) (w : Waypoint)
    (h : selectNearest dist cur l = some w) : w ∈ l := by
  match l with
  | [] => simp [selectNearest] at h
  | c :: l =>
    obtain ⟨w', hw', hmem'⟩ := selectNearest_aux dist cur l c
    have : w' = w := by
      have h2 : selectNearest dist cur (c :: l) = some w' := by
        simpa [selectNearest] using hw'
      rw [h2] at h
      exact (Option.some_inj.mp h).symm ▸ rfl
    subst this
    rcases hmem' with rfl | hm
    · exact List.mem_cons_self _ _
    · exact List.mem_cons_of_mem _ hm

theorem perm_step_pickup (route remP remD : List Waypoint) (w : Waypoint) (hw : w ∈ remP) :
    ((route ++ [w]) ++ remP.erase w ++ remD).Perm (route ++ remP ++ remD) := by
  have h1 : remP.Perm (w :: remP.erase w) := List.perm_cons_erase hw
  have h2 : (route ++ [w]) ++ remP.erase w ++ remD
      = (route ++ (w :: remP.erase w)) ++ remD := by simp
  rw [h2]
  exact List.Perm.append_right remD (List.Perm.append_left route h1.symm)

theorem perm_step_dropoff (route remP remD : List Waypoint) (w : Waypoint) (hw : w ∈ remD) :
    ((route ++ [w]) ++ remP ++ remD.erase w).Perm (route ++ remP ++ remD) := by
  have h1 : remD.Perm (w :: remD.erase w) := List.perm_cons_erase hw
  have h2 : (route ++ [w]) ++ remP ++ remD.erase w
      = route ++ (w :: (remP ++ remD.erase w)) := by simp
  have h4 : route ++ remP ++ remD = route ++ (remP ++ remD) := List.append_assoc _ _ _
  rw [h2, h4]
  have h3 : (remP ++ remD).Perm (w :: (remP ++ remD.erase w)) :=
    (List.Perm.append_left remP h1).trans List.perm_middle
  exact (List.Perm.append_left route h3).symm

/-- Decompose the global pair count of the invariant: the counts over the
three state segments add up to the count over `ws`. -/
theorem countP_parts (ws : List Waypoint) (st : SeqState) (hperm : (st.route ++ st.remP ++ st.remD).Perm ws)
    (p : Waypoint → Bool) :
    st.route.countP p + st.remP.countP p + st.remD.countP p = ws.countP p := by
  have := hperm.countP_eq p
  rw [← this, List.countP_append, List.countP_append]

/-- A pickup still to visit has its dropoff still in the remaining
dropoffs (not yet visited, because its pickup has not been visited). -/
theorem dropoff_pending_of_pickup (ws : List Waypoint) (hP : Paired ws) (st : SeqState)
    (hinv : SeqInv ws st) (w : Waypoint) (hw : w ∈ st.remP) :
    ∃ d ∈ st.remD, d.passengerId = w.passengerId := by
  have hwty := hinv.remPk w hw
  have hwhole : w ∈ st.route ++ st.remP ++ st.remD :=
    List.mem_append_left _ (List.mem_append_right _ hw)
  have hws : w ∈ ws := hinv.perm.mem_iff.mp hwhole
  have hpid : w.passengerId ∈ ws.map (fun x => x.passengerId) :=
    List.mem_map.mpr ⟨w, hws, rfl⟩
  have hparts := countP_parts ws st hinv.perm (wPred WType.dropoff w.passengerId)
  have htot : ws.countP (wPred WType.dropoff w.passengerId) = 1 := (hP _ hpid).2
  have hremP0 : st.remP.countP (wPred WType.dropoff w.passengerId) = 0 := by
    rw [List.countP_eq_zero]
    intro a ha hp
    have := (decide_eq_true_eq.mp hp).1
    rw [hinv.remPk a ha] at this
    simp at this
  have hroute0 : st.route.countP (wPred WType.dropoff w.passengerId) = 0 := by
    by_contra hne
    have hpos : 0 < st.route.countP (wPred WType.dropoff w.passengerId) :=
      Nat.pos_of_ne_zero hne
    obtain ⟨d', hd'mem, hd'p⟩ := List.countP_pos_iff.mp hpos
    obtain ⟨hd't, hd'pid⟩ := decide_eq_true_eq.mp hd'p
    rcases pbd_mem st.route [] hinv.pbd d' hd'mem hd't with habs | ⟨p', hp'mem, hp't, hp'pid⟩
    · exact absurd habs (List.not_mem_nil _)
    · have hpickparts := countP_parts ws st hinv.perm (wPred WType.pickup w.passengerId)
      have hptot : ws.countP (wPred WType.pickup w.passengerId) = 1 := (hP _ hpid).1
      have hr1 : 0 < st.route.countP (wPred WType.pickup w.passengerId) :=
        List.countP_pos_iff.mpr ⟨p', hp'mem, by
          simp only [wPred, decide_eq_true_eq]
          exact ⟨hp't, hp'pid.trans hd'pid⟩⟩
      have hp1 : 0 < st.remP.countP (wPred WType.pickup w.passengerId) :=
        List.countP_pos_iff.mpr ⟨w, hw, by
          simp only [wPred, decide_eq_true_eq]
          exact ⟨hwty, trivial⟩⟩
      omega
  have hD : 0 < st.remD.countP (wPred WType.dropoff w.passengerId) := by omega
  obtain ⟨d, hdmem, hdp⟩ := List.countP_pos_iff.mp hD
  exact ⟨d, hdmem, (decide_eq_true_eq.mp hdp).2⟩

/-- Two distinct remaining dropoffs never share a passenger id (the input
is paired). -/
theorem remD_pid_unique (ws : List Waypoint) (hP : Paired ws) (st : SeqState)
    (hinv : SeqInv ws st) (w d : Waypoint) (hw : w ∈ st.remD) (hd : d ∈ st.remD.erase w) :
    d.passengerId ≠ w.passengerId := by
  intro heq
  have hwhole : w ∈ st.route ++ st.remP ++ st.remD :=
    List.mem_append_right _ hw
  have hws : w ∈ ws := hinv.perm.mem_iff.mp hwhole
  have hpid : w.passengerId ∈ ws.map (fun x => x.passengerId) :=
    List.mem_map.mpr ⟨w, hws, rfl⟩
  have htot : ws.countP (wPred WType.dropoff w.passengerId) = 1 := (hP _ hpid).2
  have hparts := countP_parts ws st hinv.perm (wPred WType.dropoff w.passengerId)
  have hpermD : st.remD.Perm (w :: st.remD.erase w) := List.perm_cons_erase hw
  have hcnt : st.remD.countP (wPred WType.dropoff w.passengerId)
      = (st.remD.erase w).countP (wPred WType.dropoff w.passengerId) + 1 := by
    rw [hpermD.countP_eq, List.countP_cons]
    have hwp : wPred WType.dropoff w.passengerId w = true := by
      simp only [wPred, decide_eq_true_eq]
      exact ⟨hinv.remDk w hw, trivial⟩
    rw [if_pos hwp]
  have hdp : 0 < (st.remD.erase w).countP (wPred WType.dropoff w.passengerId) :=
    List.countP_pos_iff.mpr ⟨d, hd, by
      simp only [wPred, decide_eq_true_eq]
      exact ⟨hinv.remDk d (List.erase_subset _ _ hd), heq⟩⟩
  omega

/-- A selected candidate is either a remaining pickup chosen under
capacity, or a remaining dropoff of an in-car passenger. -/
theorem mem_candidates (ws : List Waypoint) (st : SeqState) (maxP : ℤ) (w : Waypoint)
    (hinv : SeqInv ws st) (hw : w ∈ seqCandidates maxP st) :
    (w.type = WType.pickup → w ∈ st.remP ∧ (st.inCar.card : ℤ) < maxP) ∧
    (w.type = WType.dropoff → w ∈ st.remD ∧ w.passengerId ∈ st.inCar) := by
  unfold seqCandidates at hw
  by_cases h : (st.inCar.card : ℤ) ≥ maxP
  · rw [if_pos h] at hw
    have hmem := List.mem_filter.mp hw
    have hty := hinv.remDk w hmem.1
    constructor
    · intro hp
      rw [hty] at hp
      simp at hp
    · intro _
      exact ⟨hmem.1, by simpa using hmem.2⟩
  · rw [if_neg h] at hw
    rcases List.mem_append.mp hw with h1 | h2
    · have hty := hinv.remPk w h1
      constructor
      · intro _
        exact ⟨h1, lt_of_not_ge h⟩
      · intro hd
        rw [hty] at hd
        simp at hd
    · have hmem := List.mem_filter.mp h2
      have hty := hinv.remDk w hmem.1
      constructor
      · intro hp
        rw [hty] at hp
        simp at hp
      · intro _
        exact ⟨hmem.1, by simpa using hmem.2⟩

/-- One visiting step preserves the loop invariant and consumes exactly
one remaining waypoint. -/
theorem seqStep_preserves (ws : List Waypoint) (hP : Paired ws) (st : SeqState) (maxP : ℤ)
    (hinv : SeqInv ws st) (w : Waypoint) (hw : w ∈ seqCandidates maxP st) :
    SeqInv ws (seqStep st w) ∧
    (seqStep st w).remP.length + (seqStep st w).remD.length + 1
      = st.remP.length + st.remD.length ∧
    (w.type = WType.pickup → (st.inCar.card : ℤ) < maxP ∧
      (seqStep st w).inCar = insert w.passengerId st.inCar) ∧
    (w.type = WType.dropoff → (seqStep st w).inCar = st.inCar.erase w.passengerId) := by
  have hcand := mem_candidates ws st maxP w hinv hw
  cases htype : w.type with
  | pickup =>
    obtain ⟨hwP, hcard⟩ := hcand.1 htype
    have hstep : seqStep st w =
        { route := st.route ++ [w], current := w, remP := st.remP.erase w,
          remD := st.remD, inCar := insert w.passengerId st.inCar } := by
      unfold seqStep
      rw [if_pos htype]
    rw [hstep]
    refine ⟨?_, ?_, fun _ => ⟨hcard, rfl⟩, fun hd => ?_⟩
    · refine ⟨?_, ?_, ?_, ?_, ?_, ?_, ?_⟩
      · exact (perm_step_pickup st.route st.remP st.remD w hwP).trans hinv.perm
      · intro x hx
        exact hinv.remPk x (List.erase_subset _ _ hx)
      · exact hinv.remDk
      · rw [pbdAux_append]
        refine ⟨hinv.pbd, ?_, trivial⟩
        intro hdrop
        rw [htype] at hdrop
        simp at hdrop
      · intro pid hpid
        rcases Finset.mem_insert.mp hpid with rfl | hold
        · exact ⟨w, List.mem_append_right _ (List.mem_cons_self _ _), htype, rfl⟩
        · obtain ⟨x, hx, hxt, hxp⟩ := hinv.inCarPicked pid hold
          exact ⟨x, List.mem_append_left _ hx, hxt, hxp⟩
      · intro pid hpid
        rcases Finset.mem_insert.mp hpid with rfl | hold
        · exact dropoff_pending_of_pickup ws hP st hinv w hwP
        · exact hinv.dropPending pid hold
      · intro d hd hdpid
        have hne : d.passengerId ≠ w.passengerId := fun heq => by
          rw [heq] at hdpid
          exact hdpid (Finset.mem_insert_self _ _)
        have hnotin : d.passengerId ∉ st.inCar := fun hmem =>
          hdpid (Finset.mem_insert_of_mem hmem)
        obtain ⟨p, hp, hppid⟩ := hinv.pickPending d hd hnotin
        have hpw : p ≠ w := fun heq => hne (by rw [← hppid, heq])
        exact ⟨p, (List.mem_erase_of_ne hpw).mpr hp, hppid⟩
    · have h1 := List.length_erase_of_mem hwP
      have h2 : 0 < st.remP.length := List.length_pos.mpr (List.ne_nil_of_mem hwP)
      simp only [h1]
      omega
    · simp at hd
  | dropoff =>
    obtain ⟨hwD, hwin⟩ := hcand.2 htype
    have hstep : seqStep st w =
        { route := st.route ++ [w], current := w, remP := st.remP,
          remD := st.remD.erase w, inCar := st.inCar.erase w.passengerId } := by
      unfold seqStep
      rw [if_neg (by rw [htype]; simp)]
    rw [hstep]
    refine ⟨?_, ?_, fun hp => ?_, fun _ => rfl⟩
    · refine ⟨?_, ?_, ?_, ?_, ?_, ?_, ?_⟩
      · exact (perm_step_dropoff st.route st.remP st.remD w hwD).trans hinv.perm
      · exact hinv.remPk
      · intro x hx
        exact hinv.remDk x (List.erase_subset _ _ hx)
      · rw [pbdAux_append]
        refine ⟨hinv.pbd, ?_, trivial⟩
        intro _
        obtain ⟨x, hx, hxt, hxp⟩ := hinv.inCarPicked w.passengerId hwin
        exact hxp ▸ mem_pickedAcc_of_mem st.route [] x hx hxt
      · intro pid hpid
        obtain ⟨x, hx, hxt, hxp⟩ := hinv.inCarPicked pid (Finset.mem_of_mem_erase hpid)
        exact ⟨x, List.mem_append_left _ hx, hxt, hxp⟩
      · intro pid hpid
        obtain ⟨hne, hold⟩ := Finset.mem_erase.mp hpid
        obtain ⟨d, hd, hdpid⟩ := hinv.dropPending pid hold
        have hdw : d ≠ w := fun heq => hne (by rw [← hdpid, heq])
        exact ⟨d, (List.mem_erase_of_ne hdw).mpr hd, hdpid⟩
      · intro d hd hdpid
        have hdne : d.passengerId ≠ w.passengerId := remD_pid_unique ws hP st hinv w d hwD hd
        have hnotin : d.passengerId ∉ st.inCar := fun hmem =>
          hdpid (Finset.mem_erase.mpr ⟨hdne, hmem⟩)
        exact hinv.pickPending d (List.erase_subset _ _ hd) hnotin
    · have h1 := List.length_erase_of_mem hwD
      have h2 : 0 < st.remD.length := List.length_pos.mpr (List.ne_nil_of_mem hwD)
      simp only [h1]
      omega
    · simp at hp

theorem replayCar_append_single (route : List Waypoint) (w : Waypoint) :
    replayCar (route ++ [w]) =
      if w.type = WType.pickup then insert w.passengerId (replayCar route)
      else (replayCar route).erase w.passengerId := by
  unfold replayCar
  rw [List.foldl_append]
  rfl

/-- While waypoints remain, the candidate list of a paired run is never
empty (for any positive capacity). -/
theorem candidates_ne_nil (ws : List Waypoint) (st : SeqState) (maxP : ℤ)
    (h1 : 1 ≤ maxP) (hinv : SeqInv ws st) (hne : ¬(st.remP = [] ∧ st.remD = [])) :
    seqCandidates maxP st ≠ [] := by
  rcases Finset.eq_empty_or_nonempty st.inCar with hemp | ⟨pid, hpid⟩
  · have hcard : ¬((st.inCar.card : ℤ) ≥ maxP) := by
      rw [hemp]
      simp only [Finset.card_empty]
      omega
    unfold seqCandidates
    rw [if_neg hcard]
    rcases hP2 : st.remP with _ | ⟨p, rest⟩
    · have hD : st.remD ≠ [] := fun h => hne ⟨hP2, h⟩
      rcases hD2 : st.remD with _ | ⟨d, restD⟩
      · exact absurd hD2 hD
      · exfalso
        have hdmem : d ∈ st.remD := by rw [hD2]; exact List.mem_cons_self _ _
        have hnotin : d.passengerId ∉ st.inCar := by rw [hemp]; simp
        obtain ⟨p, hp, _⟩ := hinv.pickPending d hdmem hnotin
        rw [hP2] at hp
        exact List.not_mem_nil p hp
    · simp [hP2]
  · obtain ⟨d, hd, hdpid⟩ := hinv.dropPending pid hpid
    have hdav : d ∈ availableDropoffs st := by
      rw [availableDropoffs, List.mem_filter]
      exact ⟨hd, by simp [hdpid, hpid]⟩
    unfold seqCandidates
    by_cases hcard : (st.inCar.card : ℤ) ≥ maxP
    · rw [if_pos hcard]
      exact List.ne_nil_of_mem hdav
    · rw [if_neg hcard]
      exact List.ne_nil_of_mem (List.mem_append_right _ hdav)

/-- Master lemma for the sequencing loop: under the invariant and with
exact fuel, the produced route is a permutation of `ws` and every dropoff
is preceded by the matching pickup. -/
theorem seqGo_perm_pbd (dist : Dist) (maxP : ℤ) (ws : List Waypoint) (hP : Paired ws) :
    ∀ (fuel : ℕ) (st : SeqState), fuel = st.remP.length + st.remD.length → SeqInv ws st →
      (seqGo dist maxP fuel st).Perm ws ∧ pbdAux [] (seqGo dist maxP fuel st) := by
  intro fuel
  induction fuel with
  | zero =>
    intro st hf hinv
    have hP0 : st.remP = [] := List.length_eq_zero.mp (by omega)
    have hD0 : st.remD = [] := List.length_eq_zero.mp (by omega)
    have hout : seqGo dist maxP 0 st = st.route := by
      simp [seqGo, hP0, hD0]
    rw [hout]
    constructor
    · have := hinv.perm
      rw [hP0, hD0] at this
      simpa using this
    · exact hinv.pbd
  | succ n IH =>
    intro st hf hinv
    have hnonempty : ¬(st.remP.isEmpty && st.remD.isEmpty) = true := by
      intro hcontra
      rw [Bool.and_eq_true, List.isEmpty_iff, List.isEmpty_iff] at hcontra
      rw [hcontra.1, hcontra.2] at hf
      simp at hf
    rcases hsel : selectNearest dist st.current (seqCandidates maxP st) with _ | w
    · have hout : seqGo dist maxP (n + 1) st = st.route ++ st.remP ++ st.remD := by
        simp only [seqGo]
        rw [if_neg hnonempty, hsel]
      rw [hout]
      refine ⟨hinv.perm, ?_⟩
      rw [pbdAux_append, pbdAux_append]
      refine ⟨⟨hinv.pbd, pbdAux_of_all_pickup _ _ hinv.remPk⟩, ?_⟩
      refine pbdAux_of_forall_mem _ _ fun d hd hdt => ?_
      by_cases hin : d.passengerId ∈ st.inCar
      · obtain ⟨x, hx, hxt, hxp⟩ := hinv.inCarPicked d.passengerId hin
        exact hxp ▸ mem_pickedAcc_of_mem _ _ x (List.mem_append_left _ hx) hxt
      · obtain ⟨p, hp, hppid⟩ := hinv.pickPending d hd hin
        have hpt := hinv.remPk p hp
        exact hppid ▸ mem_pickedAcc_of_mem _ _ p (List.mem_append_right _ hp) hpt
    · have hout : seqGo dist maxP (n + 1) st = seqGo dist maxP n (seqStep st w) := by
        simp only [seqGo]
        rw [if_neg hnonempty, hsel]
      rw [hout]
      have hwmem := selectNearest_mem dist st.current _ w hsel
      obtain ⟨hinv', hlen, _, _⟩ := seqStep_preserves ws hP st maxP hinv w hwmem
      exact IH (seqStep st w) (by omega) hinv'

/-- Master lemma for the capacity bound: with `maxPassengers ≥ 1`, every
prefix of the produced route keeps at most `maxPassengers` distinct
passengers aboard. -/
theorem seqGo_capacity (dist : Dist) (maxP : ℤ) (ws : List Waypoint) (hP : Paired ws)
    (h1 : 1 ≤ maxP) :
    ∀ (fuel : ℕ) (st : SeqState), fuel = st.remP.length + st.remD.length → SeqInv ws st →
      replayCar st.route = st.inCar →
      (∀ n, ((replayCar (st.route.take n)).card : ℤ) ≤ maxP) →
      ∀ n, ((replayCar ((seqGo dist maxP fuel st).take n)).card : ℤ) ≤ maxP := by
  intro fuel
  induction fuel with
  | zero =>
    intro st hf hinv hreplay hhist n
    have hP0 : st.remP = [] := List.length_eq_zero.mp (by omega)
    have hD0 : st.remD = [] := List.length_eq_zero.mp (by omega)
    have hout : seqGo dist maxP 0 st = st.route := by
      simp [seqGo, hP0, hD0]
    rw [hout]
    exact hhist n
  | succ m IH =>
    intro st hf hinv hreplay hhist n
    have hnonempty : ¬(st.remP.isEmpty && st.remD.isEmpty) = true := by
      intro hcontra
      rw [Bool.and_eq_true, List.isEmpty_iff, List.isEmpty_iff] at hcontra
      rw [hcontra.1, hcontra.2] at hf
      simp at hf
    have hne : ¬(st.remP = [] ∧ st.remD = []) := by
      intro hcontra
      rw [hcontra.1, hcontra.2] at hf
      simp at hf
    obtain ⟨w, hsel, hwmem⟩ := selectNearest_some_of_ne_nil dist st.current _
      (candidates_ne_nil ws st maxP h1 hinv hne)
    have hout : seqGo dist maxP (m + 1) st = seqGo dist maxP m (seqStep st w) := by
      simp only [seqGo]
      rw [if_neg hnonempty, hsel]
    rw [hout]
    obtain ⟨hinv', hlen, hpick, hdrop⟩ := seqStep_preserves ws hP st maxP hinv w hwmem
    have hroute' : (seqStep st w).route = st.route ++ [w] := by
      unfold seqStep
      by_cases htype : w.type = WType.pickup
      · rw [if_pos htype]
      · rw [if_neg htype]
    have hcardnew : ((seqStep st w).inCar.card : ℤ) ≤ maxP := by
      cases htype : w.type with
      | pickup =>
        obtain ⟨hcard, hins⟩ := hpick htype
        rw [hins]
        have := Finset.card_insert_le w.passengerId st.inCar
        have hc := hcard
        omega
      | dropoff =>
        rw [hdrop htype]
        have := Finset.card_erase_le (s := st.inCar) (a := w.passengerId)
        have hcards : ((st.inCar.card : ℤ)) ≤ maxP := by
          have h := hhist (st.route.length + 1)
          rw [List.take_of_length_le (by omega), hreplay] at h
          exact h
        omega
    have hreplay' : replayCar (seqStep st w).route = (seqStep st w).inCar := by
      rw [hroute', replayCar_append_single, hreplay]
      cases htype : w.type with
      | pickup =>
        rw [if_pos rfl, (hpick htype).2]
      | dropoff =>
        rw [if_neg (by simp), hdrop htype]
    have hhist' : ∀ k, ((replayCar ((seqStep st w).route.take k)).card : ℤ) ≤ maxP := by
      intro k
      rw [hroute']
      by_cases hk : k ≤ st.route.length
      · rw [List.take_append_of_le_length hk]
        exact hhist k
      · have hlen2 : (st.route ++ [w]).length ≤ k := by
          rw [List.length_append]
          simp only [List.length_singleton]
          omega
        rw [List.take_of_length_le hlen2, ← hroute', hreplay']
        exact hcardnew
    exact IH (seqStep st w) (by omega) hinv' hreplay' hhist' n

theorem mem_pickupsOf (ws : List Waypoint) (w : Waypoint) :
    w ∈ pickupsOf ws ↔ w ∈ ws ∧ w.type = WType.pickup := by
  rw [pickupsOf, List.mem_filter]
  simp

theorem mem_dropoffsOf (ws : List Waypoint) (w : Waypoint) :
    w ∈ dropoffsOf ws ↔ w ∈ ws ∧ w.type = WType.dropoff := by
  rw [dropoffsOf, List.mem_filter]
  simp

/-- Splitting the waypoints into pickups and dropoffs loses nothing: the
two filters partition the list. -/
theorem pickups_dropoffs_perm (ws : List Waypoint) :
    (pickupsOf ws ++ dropoffsOf ws).Perm ws := by
  have h := List.filter_append_perm (fun w => decide (w.type = WType.pickup)) ws
  have hfun : (fun w : Waypoint => decide (w.type = WType.dropoff))
      = (fun w : Waypoint => !decide (w.type = WType.pickup)) := by
    funext w
    cases h : w.type <;> simp [h]
  rw [pickupsOf, dropoffsOf, hfun]
  exact h

theorem paired_pickup_exists (ws : List Waypoint) (hP : Paired ws) (d : Waypoint)
    (hd : d ∈ ws) : ∃ p ∈ ws, p.type = WType.pickup ∧ p.passengerId = d.passengerId := by
  have hpid : d.passengerId ∈ ws.map (fun w => w.passengerId) :=
    List.mem_map.mpr ⟨d, hd, rfl⟩
  have h1 : ws.countP (wPred WType.pickup d.passengerId) = 1 := (hP _ hpid).1
  have hpos : 0 < ws.countP (wPred WType.pickup d.passengerId) := by omega
  obtain ⟨p, hp, hpp⟩ := List.countP_pos_iff.mp hpos
  obtain ⟨h2, h3⟩ := decide_eq_true_eq.mp hpp
  exact ⟨p, hp, h2, h3⟩

theorem paired_dropoff_exists (ws : List Waypoint) (hP : Paired ws) (p : Waypoint)
    (hp : p ∈ ws) : ∃ d ∈ ws, d.type = WType.dropoff ∧ d.passengerId = p.passengerId := by
  have hpid : p.passengerId ∈ ws.map (fun w => w.passengerId) :=
    List.mem_map.mpr ⟨p, hp, rfl⟩
  have h1 : ws.countP (wPred WType.dropoff p.passengerId) = 1 := (hP _ hpid).2
  have hpos : 0 < ws.countP (wPred WType.dropoff p.passengerId) := by omega
  obtain ⟨d, hd, hdp⟩ := List.countP_pos_iff.mp hpos
  obtain ⟨h2, h3⟩ := decide_eq_true_eq.mp hdp
  exact ⟨d, hd, h2, h3⟩

/-- If a paired input has no pickups it has no waypoints at all. -/
theorem paired_nil_of_no_pickups (ws : List Waypoint) (hP : Paired ws)
    (h : pickupsOf ws = []) : ws = [] := by
  have hd : dropoffsOf ws = [] := by
    rcases hD : dropoffsOf ws with _ | ⟨d, restD⟩
    · rfl
    · exfalso
      have hdmem : d ∈ dropoffsOf ws := by rw [hD]; exact List.mem_cons_self _ _
      have hdws : d ∈ ws := ((mem_dropoffsOf ws d).mp hdmem).1
      obtain ⟨q, hq, hqt, _⟩ := paired_pickup_exists ws hP d hdws
      have : q ∈ pickupsOf ws := (mem_pickupsOf ws q).mpr ⟨hq, hqt⟩
      rw [h] at this
      exact List.not_mem_nil q this
  have hperm := pickups_dropoffs_perm ws
  rw [h, hd] at hperm
  exact hperm.symm.eq_nil

/-- The state after the seed step (first pickup appended) satisfies the
loop invariant. -/
theorem seedInv (ws : List Waypoint) (hP : Paired ws) (p : Waypoint) (rest : List Waypoint)
    (hpick : pickupsOf ws = p :: rest) :
    SeqInv ws (seedState p rest (dropoffsOf ws)) := by
  rw [seedState]
  have hpmem : p ∈ pickupsOf ws := by rw [hpick]; exact List.mem_cons_self _ _
  have hpws : p ∈ ws := ((mem_pickupsOf ws p).mp hpmem).1
  have hpt : p.type = WType.pickup := ((mem_pickupsOf ws p).mp hpmem).2
  refine ⟨?_, ?_, ?_, ?_, ?_, ?_, ?_⟩
  · have : ([p] ++ rest) ++ dropoffsOf ws = (pickupsOf ws) ++ dropoffsOf ws := by
      rw [hpick]
      rfl
    rw [this]
    exact pickups_dropoffs_perm ws
  · intro w hw
    have : w ∈ pickupsOf ws := by rw [hpick]; exact List.mem_cons_of_mem _ hw
    exact ((mem_pickupsOf ws w).mp this).2
  · intro w hw
    exact ((mem_dropoffsOf ws w).mp hw).2
  · refine ⟨fun hdrop => ?_, trivial⟩
    rw [hpt] at hdrop
    simp at hdrop
  · intro pid hpid
    rw [Finset.mem_singleton] at hpid
    exact ⟨p, List.mem_cons_self _ _, hpt, hpid.symm⟩
  · intro pid hpid
    rw [Finset.mem_singleton] at hpid
    obtain ⟨d, hd, hdt, hdp⟩ := paired_dropoff_exists ws hP p hpws
    exact ⟨d, (mem_dropoffsOf ws d).mpr ⟨hd, hdt⟩, by rw [hdp, hpid]⟩
  · intro d hd hdnot
    rw [Finset.mem_singleton] at hdnot
    have hdws : d ∈ ws := ((mem_dropoffsOf ws d).mp hd).1
    obtain ⟨q, hq, hqt, hqp⟩ := paired_pickup_exists ws hP d hdws
    have hqmem : q ∈ pickupsOf ws := (mem_pickupsOf ws q).mpr ⟨hq, hqt⟩
    rw [hpick] at hqmem
    rcases List.mem_cons.mp hqmem with rfl | hqr
    · exact absurd hqp.symm hdnot
    · exact ⟨q, hqr, hqp⟩

/-- C2: for every waypoint list in which each passenger id has exactly
one pickup and one dropoff, the output of the sequencer is a permutation
of the input (same multiset of waypoints), and for every passenger the
index of the pickup in the output is strictly less than the index of the
dropoff.  Quantified over every distance function and every capacity
value. -/
theorem sequence_perm_and_pairOrder (dist : Dist) (maxP : ℤ) (ws : List Waypoint)
    (hP : Paired ws) :
    (sequenceWaypoints dist maxP ws).Perm ws ∧
      PairOrderOk (sequenceWaypoints dist maxP ws) := by
  unfold sequenceWaypoints
  by_cases hcase : (pickupsOf ws).length = 1 ∧ (dropoffsOf ws).length = 1
  · rw [if_pos hcase]
    obtain ⟨p, hp⟩ := List.length_eq_one.mp hcase.1
    obtain ⟨d, hd⟩ := List.length_eq_one.mp hcase.2
    have hpmem : p ∈ pickupsOf ws := by rw [hp]; exact List.mem_cons_self _ _
    have hdmem : d ∈ dropoffsOf ws := by rw [hd]; exact List.mem_cons_self _ _
    have hpt : p.type = WType.pickup := ((mem_pickupsOf ws p).mp hpmem).2
    have hdt : d.type = WType.dropoff := ((mem_dropoffsOf ws d).mp hdmem).2
    have hdws : d ∈ ws := ((mem_dropoffsOf ws d).mp hdmem).1
    obtain ⟨q, hq, hqt, hqp⟩ := paired_pickup_exists ws hP d hdws
    have hqmem : q ∈ pickupsOf ws := (mem_pickupsOf ws q).mpr ⟨hq, hqt⟩
    rw [hp] at hqmem
    have hqeq : q = p := by
      rcases List.mem_cons.mp hqmem with h | h
      · exact h
      · exact absurd h (List.not_mem_nil q)
    have hpid : p.passengerId = d.passengerId := hqeq ▸ hqp
    have hperm := pickups_dropoffs_perm ws
    rw [hp, hd] at hperm ⊢
    have hpbd : pbdAux [] ([p] ++ [d]) := by
      refine ⟨fun hc => ?_, fun _ => ?_, trivial⟩
      · rw [hpt] at hc
        simp at hc
      · rw [if_pos hpt]
        exact List.mem_singleton.mpr hpid.symm
    exact ⟨hperm, pairOrderOk_of_pbd ws _ hP hperm hpbd⟩
  · rw [if_neg hcase]
    rcases hpick : pickupsOf ws with _ | ⟨p, rest⟩
    · have hnil := paired_nil_of_no_pickups ws hP hpick
      subst hnil
      refine ⟨List.Perm.nil, ?_⟩
      intro i j hi
      exact absurd hi (by simp [optimizeMultiPassengerRoute, pickupsOf, dropoffsOf])
    · simp only [optimizeMultiPassengerRoute]
      obtain ⟨hperm, hpbd⟩ := seqGo_perm_pbd dist maxP ws hP
        (rest.length + (dropoffsOf ws).length) (seedState p rest (dropoffsOf ws))
        rfl (seedInv ws hP p rest hpick)
      exact ⟨hperm, pairOrderOk_of_pbd ws _ hP hperm hpbd⟩

/-- Witness for C2: a concrete paired four-waypoint input on which the
hypotheses hold and the permutation conclusion is obtained from the
theorem. -/
theorem sequence_perm_and_pairOrder_witness :
    Paired exWs2 ∧ (sequenceWaypoints exDist 4 exWs2).Perm exWs2 :=
  ⟨by decide, (sequence_perm_and_pairOrder exDist 4 exWs2 (by decide)).1⟩

/-- C3: for every capacity `maxPassengers ≥ 1` and every paired waypoint
list, replaying the output of the sequencer (a passenger is aboard from
pickup to dropoff) never puts more than `maxPassengers` distinct
passengers in the vehicle at once: every prefix of the output keeps the
replayed in-vehicle set at cardinality at most `maxPassengers`. -/
theorem sequence_capacity_bound (dist : Dist) (maxP : ℤ) (ws : List Waypoint)
    (hmax : 1 ≤ maxP) (hP : Paired ws) (n : ℕ) :
    ((replayCar ((sequenceWaypoints dist maxP ws).take n)).card : ℤ) ≤ maxP := by
  unfold sequenceWaypoints
  by_cases hcase : (pickupsOf ws).length = 1 ∧ (dropoffsOf ws).length = 1
  · rw [if_pos hcase]
    obtain ⟨p, hp⟩ := List.length_eq_one.mp hcase.1
    obtain ⟨d, hd⟩ := List.length_eq_one.mp hcase.2
    have hpmem : p ∈ pickupsOf ws := by rw [hp]; exact List.mem_cons_self _ _
    have hdmem : d ∈ dropoffsOf ws := by rw [hd]; exact List.mem_cons_self _ _
    have hpt : p.type = WType.pickup := ((mem_pickupsOf ws p).mp hpmem).2
    have hdt : d.type = WType.dropoff := ((mem_dropoffsOf ws d).mp hdmem).2
    rw [hp, hd]
    match n with
    | 0 =>
      simp only [List.take_zero]
      simp [replayCar]
      omega
    | 1 =>
      have htake : ([p] ++ [d]).take 1 = [p] := rfl
      rw [htake]
      have hrep : replayCar [p] = insert p.passengerId (∅ : Finset String) := by
        simp [replayCar, hpt]
      rw [hrep]
      have : (insert p.passengerId (∅ : Finset String)).card = 1 := by simp
      omega
    | (k + 2) =>
      have htake : ([p] ++ [d]).take (k + 2) = [p] ++ [d] := by
        refine List.take_of_length_le ?_
        simp
      rw [htake]
      have hrep : replayCar ([p] ++ [d])
          = (insert p.passengerId (∅ : Finset String)).erase d.passengerId := by
        simp [replayCar, hpt, hdt]
      rw [hrep]
      have h1 := @Finset.card_erase_le String (insert p.passengerId (∅ : Finset String))
        d.passengerId _
      have h2 : (insert p.passengerId (∅ : Finset String)).card = 1 := by simp
      omega
  · rw [if_neg hcase]
    rcases hpick : pickupsOf ws with _ | ⟨p, rest⟩
    · have hnil := paired_nil_of_no_pickups ws hP hpick
      subst hnil
      show ((replayCar (List.take n ([] : List Waypoint))).card : ℤ) ≤ maxP
      simp only [List.take_nil]
      simp [replayCar]
      omega
    · simp only [optimizeMultiPassengerRoute]
      have hpmem : p ∈ pickupsOf ws := by rw [hpick]; exact List.mem_cons_self _ _
      have hpt : p.type = WType.pickup := ((mem_pickupsOf ws p).mp hpmem).2
      refine seqGo_capacity dist maxP ws hP hmax
        (rest.length + (dropoffsOf ws).length) (seedState p rest (dropoffsOf ws))
        rfl (seedInv ws hP p rest hpick) ?_ ?_ n
      · show replayCar [p] = {p.passengerId}
        simp [replayCar, hpt]
      · intro k
        show ((replayCar ([p].take k)).card : ℤ) ≤ maxP
        match k with
        | 0 =>
          simp only [List.take_zero]
          simp [replayCar]
          omega
        | (k' + 1) =>
          have htake : ([p]).take (k' + 1) = [p] := by
            refine List.take_of_length_le ?_
            simp
          rw [htake]
          have hrep : replayCar [p] = insert p.passengerId (∅ : Finset String) := by
            simp [replayCar, hpt]
          rw [hrep]
          have : (insert p.passengerId (∅ : Finset String)).card = 1 := by simp
          omega

/-- Witness for C3: a concrete paired input sequenced with capacity 1;
every prefix of the output keeps at most one passenger aboard. -/
theorem sequence_capacity_bound_witness :
    (1 : ℤ) ≤ 1 ∧ Paired exWs2 ∧
      ((replayCar ((sequenceWaypoints exDist 1 exWs2).take 3)).card : ℤ) ≤ 1 :=
  ⟨by decide, by decide, sequence_capacity_bound exDist 1 exWs2 (by decide) (by decide) 3⟩

theorem seqGo_step_eq (dist : Dist) (maxP : ℤ) (fuel : ℕ) (st : SeqState) (w : Waypoint)
    (hne : (st.remP.isEmpty && st.remD.isEmpty) = false)
    (hsel : selectNearest dist st.current (seqCandidates maxP st) = some w) :
    seqGo dist maxP (fuel + 1) st = seqGo dist maxP fuel (seqStep st w) := by
  simp only [seqGo]
  rw [hne, hsel]
  simp

theorem seqGo_none_eq (dist : Dist) (maxP : ℤ) (fuel : ℕ) (st : SeqState)
    (hne : (st.remP.isEmpty && st.remD.isEmpty) = false)
    (hsel : selectNearest dist st.current (seqCandidates maxP st) = none) :
    seqGo dist maxP (fuel + 1) st = st.route ++ st.remP ++ st.remD := by
  simp only [seqGo]
  rw [hne, hsel]
  simp

/-- Amended C5: on the scenario-C shape (one pickup, its paired dropoff,
and a dropoff whose passenger was never picked up), sequencing does not
fail: after serving the paired passenger the candidate list is empty, so
the defensive fallback (lines 246-249) appends the unpaired dropoff at the
end of the route, for every distance function and every capacity. -/
theorem unpaired_dropoff_appended (dist : Dist) (maxP : ℤ) (p1 d1 d2 : Waypoint)
    (hp : p1.type = WType.pickup) (hd1 : d1.type = WType.dropoff)
    (hd2 : d2.type = WType.dropoff) (hpid1 : d1.passengerId = p1.passengerId)
    (hpid2 : d2.passengerId ≠ p1.passengerId) :
    sequenceWaypoints dist maxP [p1, d1, d2] = [p1, d1, d2] := by
  have hpk : pickupsOf [p1, d1, d2] = [p1] := by
    simp [pickupsOf, List.filter, hp, hd1, hd2]
  have hdk : dropoffsOf [p1, d1, d2] = [d1, d2] := by
    simp [dropoffsOf, List.filter, hp, hd1, hd2]
  unfold sequenceWaypoints
  rw [hpk, hdk, if_neg (by simp)]
  simp only [optimizeMultiPassengerRoute]
  have hlen : List.length ([] : List Waypoint) + List.length [d1, d2] = 1 + 1 := by simp
  rw [hlen]
  have hcand1 : seqCandidates maxP (seedState p1 [] [d1, d2]) = [d1] := by
    unfold seqCandidates seedState availableDropoffs
    simp [List.filter, hpid1, hpid2]
  have hsel1 : selectNearest dist (seedState p1 [] [d1, d2]).current
      (seqCandidates maxP (seedState p1 [] [d1, d2])) = some d1 := by
    rw [hcand1]
    rfl
  rw [seqGo_step_eq dist maxP 1 (seedState p1 [] [d1, d2]) d1 rfl hsel1]
  have hstep1 : seqStep (seedState p1 [] [d1, d2]) d1
      = SeqState.mk ([p1] ++ [d1]) d1 [] [d2] (∅ : Finset String) := by
    unfold seqStep seedState
    rw [if_neg (by rw [hd1]; simp)]
    simp only [SeqState.mk.injEq]
    refine ⟨trivial, trivial, trivial, List.erase_cons_head d1 [d2], ?_⟩
    rw [hpid1]
    exact Finset.erase_singleton _
  rw [hstep1]
  have hcand2 : seqCandidates maxP (SeqState.mk ([p1] ++ [d1]) d1 [] [d2] ∅) = [] := by
    unfold seqCandidates availableDropoffs
    simp [List.filter]
  have hsel2 : selectNearest dist (SeqState.mk ([p1] ++ [d1]) d1 [] [d2] ∅).current
      (seqCandidates maxP (SeqState.mk ([p1] ++ [d1]) d1 [] [d2] ∅)) = none := by
    rw [hcand2]
    rfl
  have h1eq : (1 : ℕ) = 0 + 1 := by simp
  rw [h1eq, seqGo_none_eq dist maxP 0 (SeqState.mk ([p1] ++ [d1]) d1 [] [d2] ∅) rfl hsel2]
  simp

/-- Counterexample for C5: on the concrete scenario-C input the sequencer
returns a normal route with the unpaired dropoff appended at the end; no
error of any kind is produced, contradicting the claim that sequencing
fails with `InvalidInput`. -/
theorem scenarioC_counterexample :
    sequenceWaypoints exDist 4 [exP1, exD1, exD2] = [exP1, exD1, exD2] := by decide

/-- Witness for the amended C5: the scenario hypotheses hold for concrete
waypoints and the theorem applies. -/
theorem unpaired_dropoff_appended_witness :
    exD1.passengerId = exP1.passengerId ∧ exD2.passengerId ≠ exP1.passengerId ∧
      sequenceWaypoints exDist 7 [exP1, exD1, exD2] = [exP1, exD1, exD2] :=
  ⟨by decide, by decide,
    unpaired_dropoff_appended exDist 7 exP1 exD1 exD2 rfl rfl rfl (by decide) (by decide)⟩

theorem calculateTotalDistance_nonneg (dist : Dist) (h : ∀ a b, 0 ≤ dist a b) :
    ∀ ws, 0 ≤ calculateTotalDistance dist ws
  | [] => le_refl 0
  | [_] => le_refl 0
  | a :: b :: rest =>
    add_nonneg (h a b) (calculateTotalDistance_nonneg dist h (b :: rest))

/-- C9: the efficiency score of the route evaluator equals
`min(1, distance(original) / distance(optimized))` with the convention
that a zero original distance yields score 1; it is 1 when the two
distances are equal, and it always lies in the interval [0, 1].  The
distance function is assumed nonnegative (geodesic distances are), and the
input is non-degenerate (the optimized distance is zero only if the
original one is, which holds for any metric because the optimized route
visits the same points). -/
theorem efficiencyScore_spec (dist : Dist) (optimized original : List Waypoint)
    (hnn : ∀ a b, 0 ≤ dist a b)
    (hnd : calculateTotalDistance dist original = 0 ∨
      calculateTotalDistance dist optimized ≠ 0) :
    (calculateEfficiencyScore dist optimized original
      = if calculateTotalDistance dist original = 0 then 1
        else min 1 (calculateTotalDistance dist original /
          calculateTotalDistance dist optimized)) ∧
    (calculateTotalDistance dist original = 0 →
      calculateEfficiencyScore dist optimized original = 1) ∧
    (calculateTotalDistance dist original = calculateTotalDistance dist optimized →
      calculateEfficiencyScore dist optimized original = 1) ∧
    0 ≤ calculateEfficiencyScore dist optimized original ∧
    calculateEfficiencyScore dist optimized original ≤ 1 := by
  unfold calculateEfficiencyScore
  by_cases hs : calculateTotalDistance dist original = 0
  · rw [if_pos hs]
    refine ⟨by rw [if_pos hs], fun _ => rfl, fun _ => rfl, by norm_num, le_refl 1⟩
  · have ho : calculateTotalDistance dist optimized ≠ 0 := by
      rcases hnd with h | h
      · exact absurd h hs
      · exact h
    rw [if_neg hs, if_neg ho]
    have hso : 0 ≤ calculateTotalDistance dist original :=
      calculateTotalDistance_nonneg dist hnn original
    have hoo : 0 ≤ calculateTotalDistance dist optimized :=
      calculateTotalDistance_nonneg dist hnn optimized
    have hdiv : 0 ≤ calculateTotalDistance dist original /
        calculateTotalDistance dist optimized := div_nonneg hso hoo
    have hminnn : 0 ≤ min 1 (calculateTotalDistance dist original /
        calculateTotalDistance dist optimized) := le_min zero_le_one hdiv
    have hmax : max 0 (min 1 (calculateTotalDistance dist original /
        calculateTotalDistance dist optimized))
        = min 1 (calculateTotalDistance dist original /
          calculateTotalDistance dist optimized) := max_eq_right hminnn
    rw [hmax]
    refine ⟨by rw [if_neg hs], fun hc => absurd hc hs, fun heq => ?_, hminnn, min_le_left _ _⟩
    rw [heq, div_self ho, min_self]

/-- Witness for C9: concrete two-waypoint routes with equal distances
give score 1, via the theorem. -/
theorem efficiencyScore_spec_witness :
    calculateTotalDistance exDistOne [exP1, exD1] ≠ 0 ∧
      calculateEfficiencyScore exDistOne [exP1, exD1] [exP1, exD1] = 1 :=
  ⟨by simp [calculateTotalDistance, exDistOne],
    (efficiencyScore_spec exDistOne [exP1, exD1] [exP1, exD1]
      (fun a b => zero_le_one)
      (Or.inr (by simp [calculateTotalDistance, exDistOne]))).2.2.1 rfl⟩

theorem scoreGe_trans (a b c : RideMatch) (hab : scoreGe a b = true)
    (hbc : scoreGe b c = true) : scoreGe a c = true := by
  simp only [scoreGe, decide_eq_true_eq] at *
  exact le_trans hbc hab

theorem scoreGe_total (a b : RideMatch) : (scoreGe a b || scoreGe b a) = true := by
  simp only [scoreGe, Bool.or_eq_true, decide_eq_true_eq]
  exact le_total b.compatibilityScore a.compatibilityScore

/-- C7: for every scorer and candidate list, `findMatches` returns a list
sorted by compatibility score in descending order, no returned result has
score at most 0.3, at most 20 results are returned, and an empty
candidate list yields an empty result rather than an error. -/
theorem findMatches_spec {α : Type} (calcCompat : α → Option RideMatch) (rides : List α) :
    List.Sorted (fun a b : RideMatch =>
      b.compatibilityScore ≤ a.compatibilityScore) (findMatches calcCompat rides) ∧
    (∀ m ∈ findMatches calcCompat rides, ¬(m.compatibilityScore ≤ 3/10)) ∧
    (findMatches calcCompat rides).length ≤ 20 ∧
    findMatches calcCompat ([] : List α) = [] := by
  refine ⟨?_, ?_, ?_, rfl⟩
  · unfold findMatches
    by_cases hcase : rides.isEmpty
    · rw [if_pos hcase]
      exact List.sorted_nil
    · rw [if_neg hcase]
      have hpair := @List.sorted_mergeSort RideMatch scoreGe scoreGe_trans scoreGe_total
        (thresholdFilter calcCompat rides)
      have htake := List.Pairwise.sublist (List.take_sublist 20 _) hpair
      exact htake.imp fun h => by
        simpa only [scoreGe, decide_eq_true_eq] using h
  · intro m hm
    unfold findMatches at hm
    by_cases hcase : rides.isEmpty
    · rw [if_pos hcase] at hm
      exact absurd hm (List.not_mem_nil m)
    · rw [if_neg hcase] at hm
      have hm2 : m ∈ (thresholdFilter calcCompat rides).mergeSort scoreGe :=
        (List.take_sublist 20 _).subset hm
      have hm3 : m ∈ thresholdFilter calcCompat rides :=
        (List.mergeSort_perm (thresholdFilter calcCompat rides) scoreGe).mem_iff.mp hm2
      obtain ⟨r, _, hfr⟩ := List.mem_filterMap.mp hm3
      rcases hc : calcCompat r with _ | m'
      · rw [hc] at hfr
        simp at hfr
      · rw [hc] at hfr
        have hfr2 : (if (3/10 : ℚ) < m'.compatibilityScore then some m' else none)
            = some m := hfr
        by_cases h310 : (3/10 : ℚ) < m'.compatibilityScore
        · rw [if_pos h310] at hfr2
          have : m' = m := Option.some_inj.mp hfr2
          subst this
          exact not_le_of_lt h310
        · rw [if_neg h310] at hfr2
          simp at hfr2
  · unfold findMatches
    by_cases hcase : rides.isEmpty
    · rw [if_pos hcase]
      simp
    · rw [if_neg hcase]
      exact List.length_take_le 20 _

/-- Witness for C7: the theorem applied to a concrete scorer and
candidate list. -/
theorem findMatches_spec_witness :
    List.Sorted (fun a b : RideMatch =>
      b.compatibilityScore ≤ a.compatibilityScore) (findMatches calcEx [1, 2]) ∧
    (findMatches calcEx [1, 2]).length ≤ 20 ∧
    findMatches calcEx ([] : List ℕ) = [] :=
  ⟨(findMatches_spec calcEx [1, 2]).1, (findMatches_spec calcEx [1, 2]).2.2.1,
    (findMatches_spec calcEx [1, 2]).2.2.2⟩

theorem exM_score_gt : (3/10 : ℚ) < (exMatch 1 "b" 5).compatibilityScore := by
  norm_num [exMatch]

/-- Counterexample for C8: two candidates with equal scores, where the
second has the smaller origin distance and the smaller id.  The claim
requires the closer (and smaller-id) candidate first; the code keeps the
candidate-list order, returning the farther, larger-id candidate first. -/
theorem findMatches_tie_counterexample :
    findMatches calcEx [1, 2] = [exM1, exM2] ∧
      exM1.compatibilityScore = exM2.compatibilityScore ∧
      exM2.distanceFromOrigin < exM1.distanceFromOrigin ∧
      exM2.rideId ≠ exM1.rideId := by
  refine ⟨?_, rfl, by norm_num [exM1, exM2, exMatch], by decide⟩
  unfold findMatches
  rw [if_neg (by decide)]
  have hfil : thresholdFilter calcEx [1, 2] = [exM1, exM2] := by
    unfold thresholdFilter calcEx
    simp only [List.filterMap_cons, List.filterMap_nil]
    norm_num [exM1, exM2, exMatch]
  rw [hfil]
  have hsorted : List.Pairwise (fun x y : RideMatch => scoreGe x y = true) [exM1, exM2] := by
    simp [List.pairwise_cons, scoreGe, exM1, exM2, exMatch]
  rw [List.mergeSort_of_sorted hsorted]
  rfl

/-- Amended C8: when two results have equal compatibility scores, the
stable sort keeps them in candidate-list order; origin distance and
candidate id play no role in the ranking. -/
theorem findMatches_tie_stable (a b : RideMatch)
    (hs : a.compatibilityScore = b.compatibilityScore)
    (ha : (3/10 : ℚ) < a.compatibilityScore) :
    findMatches (fun m : RideMatch => some m) [a, b] = [a, b] := by
  unfold findMatches
  rw [if_neg (by simp)]
  have hfil : thresholdFilter (fun m : RideMatch => some m) [a, b] = [a, b] := by
    unfold thresholdFilter
    simp only [List.filterMap_cons, List.filterMap_nil]
    rw [if_pos ha, if_pos (hs ▸ ha)]
  rw [hfil]
  have hsorted : List.Pairwise (fun x y : RideMatch => scoreGe x y = true) [a, b] := by
    refine List.Pairwise.cons (fun y hy => ?_)
      (List.Pairwise.cons (fun y hy => absurd hy (List.not_mem_nil y)) List.Pairwise.nil)
    have : y = b := List.mem_singleton.mp hy
    subst this
    simp [scoreGe, hs]
  rw [List.mergeSort_of_sorted hsorted]
  rfl

/-- Witness for the amended C8: a concrete equal-score pair keeps its
input order. -/
theorem findMatches_tie_stable_witness :
    exM1.compatibilityScore = exM2.compatibilityScore ∧
      (3/10 : ℚ) < exM1.compatibilityScore ∧
      findMatches (fun m : RideMatch => some m) [exM1, exM2] = [exM1, exM2] :=
  ⟨rfl, exM_score_gt, findMatches_tie_stable exM1 exM2 rfl exM_score_gt⟩

/-- Both validation failures of `optimize_route` are caught by the
`except` handler, which returns the fallback dict instead of
propagating. -/
theorem optimizeRoute_eq_fallback (dist : Dist) (ws : List Waypoint) (c : Constraints)
    (h : ws.length < 2 ∨ ((passengerSet ws).card : ℤ) > effectiveMaxPassengers c) :
    optimizeRoute dist ws c = fallbackRouteOptimization ws := by
  unfold optimizeRoute
  rcases h with h1 | h2
  · rw [if_pos h1]
  · by_cases h1 : ws.length < 2
    · rw [if_pos h1]
    · rw [if_neg h1, if_pos h2]

/-- Counterexample for C1: a one-waypoint call does not reach the caller
as a typed error; `optimize_route` catches the internal `ValueError` and
returns the fallback result dict (with an `error` string inside a
normally-shaped result). -/
theorem optimizeRoute_single_waypoint_counterexample :
    optimizeRoute exDistOne [exP1] (Constraints.mk none) = fallbackRouteOptimization [exP1] ∧
      (optimizeRoute exDistOne [exP1] (Constraints.mk none)).error
        = some "Route optimization failed, using fallback" := by
  have h : optimizeRoute exDistOne [exP1] (Constraints.mk none)
      = fallbackRouteOptimization [exP1] := by
    unfold optimizeRoute
    rw [if_pos (by decide)]
  exact ⟨h, by rw [h]; rfl⟩

/-- Amended C1: on fewer than 2 waypoints, or more distinct passengers
than the (clamped) capacity, `optimize_route` raises internally but
catches the error and returns the fallback result — the caller receives a
result dict carrying an error message, not a typed error. -/
theorem optimizeRoute_invalid_returns_fallback (dist : Dist) (ws : List Waypoint)
    (c : Constraints)
    (h : ws.length < 2 ∨ ((passengerSet ws).card : ℤ) > effectiveMaxPassengers c) :
    optimizeRoute dist ws c = fallbackRouteOptimization ws ∧
      (optimizeRoute dist ws c).error = some "Route optimization failed, using fallback" := by
  have heq := optimizeRoute_eq_fallback dist ws c h
  exact ⟨heq, by rw [heq]; rfl⟩

/-- Witness for the amended C1. -/
theorem optimizeRoute_invalid_returns_fallback_witness :
    ([exP1].length < 2 ∨
      ((passengerSet [exP1]).card : ℤ) > effectiveMaxPassengers (Constraints.mk none)) ∧
    (optimizeRoute exDistOne [exP1] (Constraints.mk none)).error
      = some "Route optimization failed, using fallback" :=
  ⟨Or.inl (by decide),
    (optimizeRoute_invalid_returns_fallback exDistOne [exP1] (Constraints.mk none)
      (Or.inl (by decide))).2⟩

/-- Counterexample for C6: on a failing input the returned result carries
fixed numeric fallback values — 10.0 km, 30.0 minutes and a 0.5
efficiency score — inside a normally-shaped result, instead of a typed
error or an excluded result. -/
theorem fixedFallback_counterexample :
    (optimizeRoute exDistOne [] (Constraints.mk none)).routeSummary.totalDistanceKm = 10 ∧
      (optimizeRoute exDistOne [] (Constraints.mk none)).routeSummary.totalTimeMinutes = 30 ∧
      (optimizeRoute exDistOne [] (Constraints.mk none)).routeSummary.efficiencyScore = 1/2 := by
  have h : optimizeRoute exDistOne [] (Constraints.mk none)
      = fallbackRouteOptimization [] := by
    unfold optimizeRoute
    rw [if_pos (by decide)]
  rw [h]
  exact ⟨rfl, rfl, rfl⟩

/-- Amended C6: failed computations do not surface as typed errors; the
service substitutes fixed numeric fallback values (distance 10.0 km, time
30.0 minutes, efficiency 0.5) inside the returned result whenever
optimization fails validation. -/
theorem fixedFallback_values (dist : Dist) (ws : List Waypoint) (c : Constraints)
    (h : ws.length < 2 ∨ ((passengerSet ws).card : ℤ) > effectiveMaxPassengers c) :
    (optimizeRoute dist ws c).routeSummary.totalDistanceKm = 10 ∧
      (optimizeRoute dist ws c).routeSummary.totalTimeMinutes = 30 ∧
      (optimizeRoute dist ws c).routeSummary.efficiencyScore = 1/2 ∧
      (optimizeRoute dist ws c).error ≠ none := by
  have heq := optimizeRoute_eq_fallback dist ws c h
  rw [heq]
  exact ⟨rfl, rfl, rfl, by simp [fallbackRouteOptimization]⟩

/-- Witness for the amended C6. -/
theorem fixedFallback_values_witness :
    (([] : List Waypoint).length < 2 ∨
      ((passengerSet []).card : ℤ) > effectiveMaxPassengers (Constraints.mk none)) ∧
    (optimizeRoute exDistOne [] (Constraints.mk none)).routeSummary.efficiencyScore = 1/2 :=
  ⟨Or.inl (by decide),
    (fixedFallback_values exDistOne [] (Constraints.mk none) (Or.inl (by decide))).2.2.1⟩

/-- C10: the capacity used by the distinct-passenger validation is
clamped to at most 4 — it equals `min(requested, 4)` — so an input with 5
or more distinct passengers takes the too-many-passengers path (returning
the fallback result) no matter how large a `max_passengers` the caller
requests. -/
theorem optimizeRoute_clamped_capacity (dist : Dist) (ws : List Waypoint) (m : ℤ)
    (h5 : 5 ≤ ((passengerSet ws).card : ℤ)) :
    effectiveMaxPassengers (Constraints.mk (some m)) = min m 4 ∧
      optimizeRoute dist ws (Constraints.mk (some m)) = fallbackRouteOptimization ws := by
  refine ⟨rfl, ?_⟩
  apply optimizeRoute_eq_fallback
  right
  have hle : effectiveMaxPassengers (Constraints.mk (some m)) ≤ 4 :=
    min_le_right _ _
  omega

/-- Witness for C10: five distinct passengers with a requested capacity
of 9 still take the fallback path. -/
theorem optimizeRoute_clamped_capacity_witness :
    5 ≤ ((passengerSet exWs5).card : ℤ) ∧
      optimizeRoute exDistOne exWs5 (Constraints.mk (some 9))
        = fallbackRouteOptimization exWs5 :=
  ⟨by decide, (optimizeRoute_clamped_capacity exDistOne exWs5 9 (by decide)).2⟩

theorem calculateWaypointEta_neg (dist : Dist) (seq : List Waypoint) :
    calculateWaypointEta dist seq (-1) = 0 := by
  unfold calculateWaypointEta
  rw [if_pos (Or.inl (by norm_num))]

/-- Amended C4: when a passenger's pickup waypoint is absent from the
sequenced list given to the evaluator, no `IncompleteRoute` error is
produced; the passenger still receives a segment, with pickup order 0
(the sentinel index -1 plus one) and pickup ETA 0 — a zeroed partial
segment. -/
theorem evaluator_missing_pickup_zeroed (dist : Dist) (seq : List Waypoint)
    (p d : Waypoint) (hp : p.type = WType.pickup) (hd : d.type = WType.dropoff)
    (hpid : d.passengerId = p.passengerId) (habs : ∀ w ∈ seq, w.id ≠ p.id) :
    ((calculatePassengerRoutes dist seq [p, d]).map
      (fun e => (e.1, e.2.pickupOrder, e.2.estimatedPickupTime)))
      = [(p.passengerId, 0, 0)] := by
  have hgroup : groupPassengerWaypoints [p, d] = [(p.passengerId, (some p, some d))] := by
    unfold groupPassengerWaypoints setGroupEntry
    simp [hp, hd, hpid]
  have hidx : findIdxById seq p.id = -1 := by
    unfold findIdxById
    have hnone : seq.findIdx? (fun w => decide (w.id = p.id)) = none := by
      rw [List.findIdx?_eq_none_iff]
      intro x hx
      simp [habs x hx]
    rw [hnone]
  unfold calculatePassengerRoutes
  rw [hgroup]
  simp only [List.foldl_cons, List.foldl_nil, List.nil_append, List.map_cons, List.map_nil]
  rw [hidx, calculateWaypointEta_neg]
  norm_num

/-- Counterexample for C4: concrete evaluator call whose sequenced list
is missing the pickup of passenger A.  The evaluator returns a normal
per-passenger segment with pickup order 0 and pickup ETA 0 (zeroed),
instead of failing with `IncompleteRoute`. -/
theorem evaluator_zeroed_segment_counterexample :
    calculatePassengerRoutes exDistOne [exD1] [exP1, exD1]
      = [("A", PassengerSegment.mk 0 1 1 0 0 0)] := by
  have hgroup : groupPassengerWaypoints [exP1, exD1]
      = [("A", (some exP1, some exD1))] := by decide
  unfold calculatePassengerRoutes
  rw [hgroup]
  simp only [List.foldl_cons, List.foldl_nil, List.nil_append]
  have hidxp : findIdxById [exD1] exP1.id = -1 := by decide
  have hidxd : findIdxById [exD1] exD1.id = 0 := by decide
  rw [hidxp, hidxd, calculateWaypointEta_neg]
  have hetad : calculateWaypointEta exDistOne [exD1] 0 = 0 := by
    unfold calculateWaypointEta
    rw [if_neg (by norm_num)]
    norm_num [etaSum, pyInt]
  rw [hetad]
  norm_num [exDistOne]

/-- Witness for the amended C4. -/
theorem evaluator_missing_pickup_zeroed_witness :
    exD1.passengerId = exP1.passengerId ∧
      ((calculatePassengerRoutes exDistOne [exD1] [exP1, exD1]).map
        (fun e => (e.1, e.2.pickupOrder, e.2.estimatedPickupTime)))
        = [(exP1.passengerId, 0, 0)] :=
  ⟨by decide,
    evaluator_missing_pickup_zeroed exDistOne [exD1] exP1 exD1 rfl rfl (by decide)
      (by decide)⟩

end Aryv
